import Mathlib

/-!
Verification of the leaf-disease-detection backend core: a shallow embedding
of the upload admission, artifact derivation, detection lifecycle, disease
aggregation and database error handling code, together with theorems settling
the specified properties.

Conventions of the embedding:
* Database rows (`detections`, `diseases`) and the artifact store are lists
  carried in an explicit `Db` state; route handlers are functions from a state
  to a response paired with the successor state.
* Confidence scores (two-decimal fractions in the source) are naturals in
  hundredths; timestamps are natural numbers.
* Fallible external writes (image derivation, row inserts) take explicit
  boolean fault flags: `true` means the underlying operation throws.
-/

namespace LeafDisease

/-- `toLowerCase()` / prisma `mode: insensitive`, rendered structurally:
lowercase every character of the string. -/
def strLower (s : String) : String :=
  ⟨s.data.map Char.toLower⟩

/-- A row of the `detections` table (prisma schema).  `fileId` is the uuid
that multer embedded in the artifact filenames and in `imageUrl`;
`processingStatus` is the free-form status string column.  Confidence
scores are fractional values with two decimals in the source
(`0.85`, `0.15`); they are represented exactly in hundredths, so `0.85 ↦ 85`
and `1.0 ↦ 100`. -/
structure Detection where
  id : String
  userId : String
  fileId : String
  processingStatus : String
  confidenceScore : Option Nat := none
  createdAt : Nat := 0
  processedAt : Option Nat := none
deriving DecidableEq

/-- A row of the `diseases` table (confidence in hundredths). -/
structure Disease where
  detectionId : String
  diseaseName : String
  confidence : Nat
  treatmentRecommendations : List String
deriving DecidableEq

/-- Whole persisted state: both tables plus the artifact store.  A storage
entry `(userId, variant, fileId)` stands for one written file
`uploads/{userId}/{variant dir}/{fileId}...`. -/
structure Db where
  detections : List Detection
  diseases : List Disease
  storage : List (String × String × String)
deriving DecidableEq

def emptyDb : Db := { detections := [], diseases := [], storage := [] }

/-! ## Admission validation (uploadService.ts and its S3 variant) -/

def MAX_FILE_SIZE : Int := 10 * 1024 * 1024

def ALLOWED_MIME_TYPES : List String :=
  ["image/jpeg", "image/jpg", "image/png", "image/webp"]

/-- `validateFileType` (identical in both copies of the service). -/
def validateFileType (mimetype : String) : Bool :=
  ALLOWED_MIME_TYPES.contains mimetype

/-- `validateFileSize` as written in `services/uploadService.ts`:
`return size <= MAX_FILE_SIZE` — no lower bound. -/
def validateFileSize (size : Int) : Bool :=
  decide (size ≤ MAX_FILE_SIZE)

/-- `validateFileSize` from the S3-capable copy of the upload service:
`return size > 0 && size <= MAX_FILE_SIZE`. -/
def validateFileSizeStrict (size : Int) : Bool :=
  decide (0 < size) && decide (size ≤ MAX_FILE_SIZE)

/-! ## Default treatment table (diseaseService.ts) -/

def healthyTreatments : List String :=
  ["No treatment needed",
   "Continue regular plant care",
   "Monitor for early signs of disease"]

def bacterialBlightTreatments : List String :=
  ["Remove affected leaves immediately",
   "Apply copper-based bactericide",
   "Improve air circulation around plants",
   "Avoid overhead watering"]

def leafSpotTreatments : List String :=
  ["Remove infected leaves and debris",
   "Apply fungicide spray",
   "Ensure proper plant spacing",
   "Water at soil level to avoid wetting leaves"]

def rustTreatments : List String :=
  ["Remove affected leaves",
   "Apply sulfur-based fungicide",
   "Improve air circulation",
   "Avoid watering in evening"]

def powderyMildewTreatments : List String :=
  ["Increase air circulation",
   "Apply baking soda solution (1 tsp per quart water)",
   "Use fungicidal spray if severe",
   "Remove heavily infected leaves"]

def earlyBlightTreatments : List String :=
  ["Remove infected leaves and debris",
   "Apply copper or chlorothalonil fungicide",
   "Improve air circulation",
   "Avoid overhead watering",
   "Rotate crops next season"]

def lateBlightTreatments : List String :=
  ["Remove and destroy infected plants immediately",
   "Apply copper-based fungicide preventively",
   "Improve air circulation",
   "Avoid overhead watering",
   "Consider resistant varieties for future planting"]

def unknownLabelTreatments : List String :=
  ["Consult with agricultural extension service",
   "Consider professional plant pathologist consultation",
   "Monitor plant closely for changes",
   "Remove affected plant material",
   "Improve growing conditions"]

/-- `getDefaultTreatmentRecommendations`: lookup of the lowercased label in
the static record, falling through to the catch-all list. -/
def getDefaultTreatmentRecommendations (diseaseName : String) : List String :=
  let k := strLower diseaseName
  if k = "healthy" then healthyTreatments
  else if k = "bacterial_blight" then bacterialBlightTreatments
  else if k = "leaf_spot" then leafSpotTreatments
  else if k = "rust" then rustTreatments
  else if k = "powdery_mildew" then powderyMildewTreatments
  else if k = "early_blight" then earlyBlightTreatments
  else if k = "late_blight" then lateBlightTreatments
  else unknownLabelTreatments

/-! ## Treatment lookup (diseaseService.getTreatmentRecommendations)

The prisma query orders the matching disease rows by the owning detection's
`processedAt` descending and takes the first.  The embedding joins each
disease with its detection's `processedAt`, treating an absent detection or
an unset `processedAt` as oldest (key 0). -/

def detectionProcessedKey (db : Db) (detId : String) : Nat :=
  match db.detections.find? (fun d => d.id == detId) with
  | some d => d.processedAt.getD 0
  | none => 0

/-- Fold step selecting the element with the larger key, keeping the earlier
element on ties (a deterministic rendering of `findFirst` with `orderBy`). -/
def argmaxStep (key : α → Nat) (best : Option α) (d : α) : Option α :=
  match best with
  | none => some d
  | some b => if key b < key d then some d else some b

def latestDiseaseFor (db : Db) (diseaseName : String) : Option Disease :=
  (db.diseases.filter
    (fun d => strLower d.diseaseName == strLower diseaseName)).foldl
    (argmaxStep (fun d => detectionProcessedKey db d.detectionId)) none

/-- `getTreatmentRecommendations`: recorded recommendations of the most
recently processed matching disease row when one exists, else the default
table. -/
def getTreatmentRecommendations (db : Db) (diseaseName : String) : List String :=
  match latestDiseaseFor db diseaseName with
  | some d => d.treatmentRecommendations
  | none => getDefaultTreatmentRecommendations diseaseName

/-! ## Database error handling (lib/database.ts) -/

/-- The raw error thrown by the underlying store, as the JS code sees it:
a message, an optional `code` and an optional `meta.target`. -/
structure JsError where
  message : String
  code : Option String := none
  metaTarget : Option String := none
deriving DecidableEq

/-- `DatabaseError` from types/index.ts: message plus optional `code` and
`constraint` fields. -/
structure DatabaseError where
  message : String
  code : Option String := none
  constraint : Option String := none
deriving DecidableEq

/-- `handleDatabaseError`.  JS truthiness is rendered explicitly: an empty
`message` falls back to the default text, and an empty-string `code` is
falsy, so the code branch is skipped. -/
def handleDatabaseError (e : JsError) : DatabaseError :=
  let base : DatabaseError :=
    { message := if e.message = "" then "Database operation failed" else e.message }
  match e.code with
  | none => base
  | some c =>
    if c = "" then base
    else
      let withCode : DatabaseError := { base with code := some c }
      if c = "P2002" then
        { withCode with
          message := "A record with this information already exists",
          constraint := e.metaTarget }
      else if c = "P2025" then { withCode with message := "Record not found" }
      else if c = "P2003" then { withCode with message := "Foreign key constraint failed" }
      else if c = "P2014" then { withCode with message := "Invalid ID provided" }
      else { withCode with message := "Database error: " ++ e.message }

/-- `withDatabaseErrorHandling`: re-throw every failure as the converted
`DatabaseError`. -/
def withDatabaseErrorHandling (op : Except JsError α) : Except DatabaseError α :=
  match op with
  | .ok v => .ok v
  | .error e => .error (handleDatabaseError e)

/-- `executeTransaction` runs the transaction body inside
`withDatabaseErrorHandling`. -/
def executeTransaction (ops : Except JsError α) : Except DatabaseError α :=
  withDatabaseErrorHandling ops

/-! ## Route handlers (routes/upload.ts)

A handler returns the HTTP status it responded with together with the
successor persisted state. -/

structure RouteResult where
  httpStatus : Nat
  db : Db
deriving DecidableEq

def findFirstDetection (db : Db) (detectionId userId : String) : Option Detection :=
  db.detections.find? (fun d => d.id == detectionId && d.userId == userId)

/-- First element of the hard-coded `mockDiseases` array built by
`POST /process/:detectionId`, with its treatment recommendations read from
the (pre-update) database. -/
def mockDisease1 (db : Db) (detectionId : String) : Disease :=
  { detectionId := detectionId
    diseaseName := "bacterial_blight"
    confidence := 85
    treatmentRecommendations := getTreatmentRecommendations db "bacterial_blight" }

/-- Second element of the hard-coded `mockDiseases` array. -/
def mockDisease2 (db : Db) (detectionId : String) : Disease :=
  { detectionId := detectionId
    diseaseName := "healthy"
    confidence := 15
    treatmentRecommendations := getTreatmentRecommendations db "healthy" }

/-- `mockDiseases[0].confidence`, the value written into
`confidenceScore`. -/
def topMockConfidence (db : Db) (detectionId : String) : Nat :=
  (mockDisease1 db detectionId).confidence

/-- The `prisma.detection.update` data of the process route: status
`completed`, `confidenceScore`, `processedAt = now`. -/
def completeDetection (now conf : Nat) (d : Detection) : Detection :=
  { d with processingStatus := "completed"
           confidenceScore := some conf
           processedAt := some now }

/-- `POST /process/:detectionId`.  `insert1Fails` / `insert2Fails` say
whether the corresponding `createDisease` call throws; the two inserts are
issued independently (`Promise.all`), so each successful one persists even
when the other fails, and the preceding `detection.update` always persists.
A thrown error is answered with status 500 by the catch block. -/
def processRouteF (db : Db) (detectionId userId : String) (now : Nat)
    (insert1Fails insert2Fails : Bool) : RouteResult :=
  match findFirstDetection db detectionId userId with
  | none => { httpStatus := 404, db := db }
  | some det =>
    if det.processingStatus = "pending" then
      let conf := topMockConfidence db detectionId
      let detections := db.detections.map
        (fun d => if d.id = detectionId then completeDetection now conf d else d)
      let inserted :=
        (if insert1Fails then [] else [mockDisease1 db detectionId]) ++
        (if insert2Fails then [] else [mockDisease2 db detectionId])
      { httpStatus := if insert1Fails || insert2Fails then 500 else 200
        db := { db with detections := detections, diseases := db.diseases ++ inserted } }
    else
      { httpStatus := 400, db := db }

/-- The fault-free process route. -/
def processRoute (db : Db) (detectionId userId : String) (now : Nat) : RouteResult :=
  processRouteF db detectionId userId now false false

/-- The `prisma.detection.create` data of the upload route: a fresh pending
row. -/
def newDetectionRow (userId fileId newRowId : String) (now : Nat) : Detection :=
  { id := newRowId, userId := userId, fileId := fileId,
    processingStatus := "pending", confidenceScore := none,
    createdAt := now, processedAt := none }

/-- `POST /image`.  When the handler runs, multer has already admitted the
file and stored the original; the handler then derives the processed and
thumbnail variants and only afterwards creates the pending Detection row.
Each fault flag set to `false` makes the corresponding step throw, which the
catch block answers with 500 — no written artifact is removed on failure. -/
def uploadRoute (db : Db) (userId fileId newRowId : String) (now : Nat)
    (processedOk thumbOk createOk : Bool) : RouteResult :=
  let db0 : Db := { db with storage := db.storage ++ [(userId, "original", fileId)] }
  if processedOk then
    let db1 : Db := { db0 with storage := db0.storage ++ [(userId, "processed", fileId)] }
    if thumbOk then
      let db2 : Db := { db1 with storage := db1.storage ++ [(userId, "thumbnail", fileId)] }
      if createOk then
        { httpStatus := 200,
          db := { db2 with detections :=
            db2.detections ++ [newDetectionRow userId fileId newRowId now] } }
      else { httpStatus := 500, db := db2 }
    else { httpStatus := 500, db := db1 }
  else { httpStatus := 500, db := db0 }

/-- `cleanupFiles` from `services/uploadService.ts`: its body computes
candidate path strings but performs no deletion (the comment in the source
defers cleanup to the route handlers, which never do it), so the state is
returned unchanged. -/
def cleanupFiles (db : Db) (userId detectionId : String) : Db :=
  let _ := userId
  let _ := detectionId
  db

/-- Number of stored artifact variants for a given owner and file id. -/
def variantCount (db : Db) (userId fileId : String) : Nat :=
  (db.storage.filter (fun e => e.1 == userId && e.2.2 == fileId)).length

/-- States reachable from the empty database through the two
state-changing routes. -/
inductive Reach : Db → Prop where
  | empty : Reach emptyDb
  | upload (db : Db) (u f rid : String) (now : Nat) (p t c : Bool) :
      Reach db → Reach (uploadRoute db u f rid now p t c).db
  | process (db : Db) (i u : String) (now : Nat) (f1 f2 : Bool) :
      Reach db → Reach (processRouteF db i u now f1 f2).db

/-! ## History and status queries (routes/upload.ts) -/

structure HistoryQuery where
  status : Option String := none
  dateFrom : Option Nat := none
  dateTo : Option Nat := none
  page : Nat := 1
  limit : Nat := 10
deriving DecidableEq

/-- The prisma `where` object of `GET /history`: owner scope plus the
optional status and date-range filters. -/
def matchesHistory (userId : String) (q : HistoryQuery) (d : Detection) : Bool :=
  d.userId == userId &&
  (match q.status with | none => true | some s => d.processingStatus == s) &&
  (match q.dateFrom with | none => true | some t => decide (t ≤ d.createdAt)) &&
  (match q.dateTo with | none => true | some t => decide (d.createdAt ≤ t))

/-- Insertion step for sorting by `createdAt` descending. -/
def insertByCreatedDesc (d : Detection) : List Detection → List Detection
  | [] => [d]
  | e :: es =>
    if e.createdAt ≤ d.createdAt then d :: e :: es
    else e :: insertByCreatedDesc d es

/-- `orderBy createdAt desc` as an insertion sort. -/
def sortByCreatedDesc : List Detection → List Detection
  | [] => []
  | d :: ds => insertByCreatedDesc d (sortByCreatedDesc ds)

/-- `GET /history`: filter by owner and query, newest first, then
`skip = (page-1)*limit` and `take = limit`. -/
def historyRoute (db : Db) (userId : String) (q : HistoryQuery) : List Detection :=
  ((sortByCreatedDesc (db.detections.filter (matchesHistory userId q))).drop
    ((q.page - 1) * q.limit)).take q.limit

/-- `GET /status/:detectionId`: `findFirst` scoped to both the id and the
requesting owner; `none` is answered with 404. -/
def statusRoute (db : Db) (detectionId userId : String) : Option Detection :=
  findFirstDetection db detectionId userId

/-! ## Artifact derivation dimensions (uploadService.ts)

`processImage` calls sharp `resize(1024, 1024, fit: inside,
withoutEnlargement)`; `createThumbnail` calls `resize(200, 200, fit:
cover)`.  The embedding renders sharp's documented fit arithmetic on pixel
dimensions: `inside` scales both edges by the common factor that bounds them
by the target without enlarging, `cover` scales by the factor that makes the
shorter edge reach the target and center-crops the overshoot.  `round` is
rendered as round-half-up on naturals. -/

/-- Round-half-up of `(short * target) / long`: the shorter edge after
scaling the longer edge exactly to `target`. -/
def scaledEdge (target long short : Nat) : Nat :=
  (2 * short * target + long) / (2 * long)

/-- Output pixel dimensions of `processImage`. -/
def processImageDims (w h : Nat) : Nat × Nat :=
  if w ≤ 1024 ∧ h ≤ 1024 then (w, h)
  else if h ≤ w then (1024, scaledEdge 1024 w h)
  else (scaledEdge 1024 h w, 1024)

/-- Edge length after cover-scaling dimension `d` so that the shorter
input edge `m` maps to 200. -/
def coverEdge (d m : Nat) : Nat :=
  (2 * d * 200 + m) / (2 * m)

/-- Output pixel dimensions of `createThumbnail`: cover-scale, then
center-crop each edge to at most 200. -/
def createThumbnailDims (w h : Nat) : Nat × Nat :=
  let m := min w h
  (min (coverEdge w m) 200, min (coverEdge h m) 200)

/-! ## Helper lemmas -/

theorem argmaxStep_ne_none (key : α → Nat) (best : Option α) (d : α) :
    argmaxStep key best d ≠ none := by
  cases best with
  | none => simp [argmaxStep]
  | some b =>
    simp only [argmaxStep]
    split <;> simp

theorem foldl_argmaxStep_none (key : α → Nat) (l : List α) (acc : Option α) :
    l.foldl (argmaxStep key) acc = none → l = [] ∧ acc = none := by
  induction l generalizing acc with
  | nil => intro h; exact ⟨rfl, h⟩
  | cons x xs ih =>
    intro h
    rcases ih (argmaxStep key acc x) h with ⟨-, hstep⟩
    exact absurd hstep (argmaxStep_ne_none key acc x)

theorem foldl_argmaxStep_mem (key : α → Nat) (l : List α) (acc : Option α) (r : α) :
    l.foldl (argmaxStep key) acc = some r → acc = some r ∨ r ∈ l := by
  induction l generalizing acc with
  | nil => intro h; exact Or.inl h
  | cons x xs ih =>
    intro h
    rcases ih (argmaxStep key acc x) h with hstep | hmem
    · cases acc with
      | none =>
        simp only [argmaxStep, Option.some_inj] at hstep
        subst hstep
        right; exact List.mem_cons_self x xs
      | some b =>
        simp only [argmaxStep] at hstep
        split at hstep
        · rw [Option.some_inj] at hstep
          subst hstep
          right; exact List.mem_cons_self x xs
        · left; exact hstep
    · right; exact List.mem_cons_of_mem x hmem

theorem foldl_argmaxStep_ge (key : α → Nat) (l : List α) (acc : Option α) (r : α) :
    l.foldl (argmaxStep key) acc = some r →
    (∀ e ∈ l, key e ≤ key r) ∧ (∀ b, acc = some b → key b ≤ key r) := by
  induction l generalizing acc with
  | nil =>
    intro h
    simp only [List.foldl_nil] at h
    refine ⟨by simp, fun b hb => ?_⟩
    rw [hb, Option.some_inj] at h
    subst h
    exact le_refl _
  | cons x xs ih =>
    intro h
    rcases ih (argmaxStep key acc x) h with ⟨hxs, hacc⟩
    have hx : key x ≤ key r := by
      cases acc with
      | none => exact hacc x rfl
      | some b =>
        simp only [argmaxStep] at hacc
        by_cases hlt : key b < key x
        · exact hacc x (by simp [hlt])
        · exact le_trans (Nat.le_of_not_lt hlt) (hacc b (by simp [hlt]))
    refine ⟨fun e he => ?_, fun b hb => ?_⟩
    · rcases List.mem_cons.mp he with rfl | hmem
      · exact hx
      · exact hxs e hmem
    · subst hb
      simp only [argmaxStep] at hacc
      by_cases hlt : key b < key x
      · exact le_trans (Nat.le_of_lt hlt) hx
      · exact hacc b (by simp [hlt])

theorem mem_insertByCreatedDesc (d x : Detection) (l : List Detection) :
    x ∈ insertByCreatedDesc d l ↔ x = d ∨ x ∈ l := by
  induction l with
  | nil => simp [insertByCreatedDesc]
  | cons e es ih =>
    simp only [insertByCreatedDesc]
    split
    · simp
    · simp only [List.mem_cons, ih]
      tauto

theorem mem_sortByCreatedDesc (x : Detection) (l : List Detection) :
    x ∈ sortByCreatedDesc l ↔ x ∈ l := by
  induction l with
  | nil => simp [sortByCreatedDesc]
  | cons e es ih => simp [sortByCreatedDesc, mem_insertByCreatedDesc, ih]

theorem scaledEdge_le (target long short : Nat) (hl : 1 ≤ long) (hs : short ≤ long) :
    scaledEdge target long short ≤ target := by
  unfold scaledEdge
  have hnum : 2 * short * target + long ≤ 2 * long * target + long := by
    have := Nat.mul_le_mul_right target (Nat.mul_le_mul_left 2 hs)
    omega
  calc (2 * short * target + long) / (2 * long)
      ≤ (2 * long * target + long) / (2 * long) := Nat.div_le_div_right hnum
    _ = target := by
        rw [Nat.mul_add_div (by omega), Nat.div_eq_of_lt (by omega)]
        omega

theorem coverEdge_ge (d m : Nat) (hm : 1 ≤ m) (hd : m ≤ d) :
    200 ≤ coverEdge d m := by
  unfold coverEdge
  have hnum : 2 * m * 200 + m ≤ 2 * d * 200 + m := by
    have := Nat.mul_le_mul_right 200 (Nat.mul_le_mul_left 2 hd)
    omega
  calc (200 : Nat)
      = (2 * m * 200 + m) / (2 * m) := by
        rw [Nat.mul_add_div (by omega), Nat.div_eq_of_lt (by omega)]
    _ ≤ (2 * d * 200 + m) / (2 * m) := Nat.div_le_div_right hnum

/-! ## Claim C3 — admission size validation -/

/-- C3: the claim says size validation rejects every length ≤ 0 and accepts
exactly `0 < length ≤ 10 MiB`.  The `uploadService.ts` `validateFileSize`
accepts `0` and `-1` (it only checks the upper bound), although the
repository's own property test expects `validateFileSize(0)` to be false and
the S3 copy of the service implements exactly the claimed bounds; type
validation matches the fixed allow-set exactly. -/
theorem c3_validateFileSize_bug :
    validateFileSize 0 = true ∧ validateFileSize (-1) = true ∧
    validateFileSize (10 * 1024 * 1024) = true ∧
    validateFileSize (10 * 1024 * 1024 + 1) = false ∧
    validateFileSizeStrict 0 = false ∧
    (∀ n : Int, validateFileSizeStrict n = true ↔ 0 < n ∧ n ≤ MAX_FILE_SIZE) ∧
    (∀ m : String, validateFileType m = true ↔ m ∈ ALLOWED_MIME_TYPES) := by
  refine ⟨by decide, by decide, by decide, by decide, by decide, fun n => ?_, fun m => ?_⟩
  · simp [validateFileSizeStrict]
  · simp [validateFileType]

/-! ## Claim C10 — database error conversion -/

/-- C10: every failure escaping `withDatabaseErrorHandling` (and
`executeTransaction` is exactly that wrapper around the transaction body) is
the `DatabaseError` produced by `handleDatabaseError`; a non-empty Prisma
error code is preserved on it, the four known codes replace the message with
a fixed human-readable phrase (P2002 additionally records the violated
constraint from `meta.target`), and every other code gets the prefixed raw
message. -/
theorem c10_database_error_handling (js : JsError) (c : String)
    (hcode : js.code = some c) (hne : c ≠ "") :
    (∀ (op : Except JsError Nat) (e : DatabaseError),
        withDatabaseErrorHandling op = .error e →
        ∃ raw, op = .error raw ∧ e = handleDatabaseError raw) ∧
    (∀ (op : Except JsError Nat), executeTransaction op = withDatabaseErrorHandling op) ∧
    (handleDatabaseError js).code = some c ∧
    (c = "P2002" →
      (handleDatabaseError js).message = "A record with this information already exists" ∧
      (handleDatabaseError js).constraint = js.metaTarget) ∧
    (c = "P2025" → (handleDatabaseError js).message = "Record not found") ∧
    (c = "P2003" → (handleDatabaseError js).message = "Foreign key constraint failed") ∧
    (c = "P2014" → (handleDatabaseError js).message = "Invalid ID provided") ∧
    (c ≠ "P2002" → c ≠ "P2025" → c ≠ "P2003" → c ≠ "P2014" →
      (handleDatabaseError js).message = "Database error: " ++ js.message) := by
  refine ⟨?_, fun _ => rfl, ?_, ?_, ?_, ?_, ?_, ?_⟩
  · intro op e h
    cases op with
    | ok v => simp [withDatabaseErrorHandling] at h
    | error raw =>
      refine ⟨raw, rfl, ?_⟩
      simp only [withDatabaseErrorHandling] at h
      exact (Except.error.injEq _ _).mp h |>.symm
  · simp only [handleDatabaseError, hcode, hne, if_false]
    split_ifs <;> rfl
  · intro h; subst h
    constructor <;> simp [handleDatabaseError, hcode]
  · intro h; subst h
    simp [handleDatabaseError, hcode]
  · intro h; subst h
    simp [handleDatabaseError, hcode]
  · intro h; subst h
    simp [handleDatabaseError, hcode]
  · intro h1 h2 h3 h4
    simp [handleDatabaseError, hcode, hne, h1, h2, h3, h4]

def uniqueViolation : JsError :=
  { message := "duplicate key", code := some "P2002", metaTarget := some "users_email_key" }

/-- Witness for C10 at a concrete P2002 unique-constraint violation. -/
theorem c10_witness :
    withDatabaseErrorHandling (Except.error uniqueViolation : Except JsError Nat) =
      Except.error (handleDatabaseError uniqueViolation) ∧
    (handleDatabaseError uniqueViolation).code = some "P2002" ∧
    (handleDatabaseError uniqueViolation).message =
      "A record with this information already exists" ∧
    (handleDatabaseError uniqueViolation).constraint = some "users_email_key" := by
  have h := c10_database_error_handling uniqueViolation "P2002" rfl (by decide)
  exact ⟨rfl, h.2.2.1, (h.2.2.2.1 rfl).1, (h.2.2.2.1 rfl).2⟩

/-! ## Claim C7 — derivation boundedness -/

/-- C7: for every admitted image (positive pixel dimensions), the processed
variant's longer edge is at most 1024 and at most the original's longer edge
(sharp `fit: inside` with `withoutEnlargement` never upscales), and the
thumbnail variant is exactly 200×200 (`fit: cover` center crop). -/
theorem c7_derivation_bounded (w h : Nat) (hw : 1 ≤ w) (hh : 1 ≤ h) :
    max (processImageDims w h).1 (processImageDims w h).2 ≤ 1024 ∧
    max (processImageDims w h).1 (processImageDims w h).2 ≤ max w h ∧
    createThumbnailDims w h = (200, 200) := by
  have hthumb : createThumbnailDims w h = (200, 200) := by
    have hm : 1 ≤ min w h := le_min hw hh
    have hcw : 200 ≤ coverEdge w (min w h) := coverEdge_ge w (min w h) hm (min_le_left w h)
    have hch : 200 ≤ coverEdge h (min w h) := coverEdge_ge h (min w h) hm (min_le_right w h)
    simp [createThumbnailDims, Nat.min_eq_right hcw, Nat.min_eq_right hch]
  refine ⟨?_, ?_, hthumb⟩ <;>
  · unfold processImageDims
    split_ifs with hsmall hwide
    · simp only []
      omega
    · have hscaled : scaledEdge 1024 w h ≤ 1024 := scaledEdge_le 1024 w h hw hwide
      simp only []
      omega
    · have hscaled : scaledEdge 1024 h w ≤ 1024 :=
        scaledEdge_le 1024 h w hh (by omega)
      simp only []
      omega

/-- Witness for C7 on the spec's 2000×1000 example: the processed variant is
1024×512 and the thumbnail 200×200. -/
theorem c7_witness :
    max (processImageDims 2000 1000).1 (processImageDims 2000 1000).2 ≤ 1024 ∧
    processImageDims 2000 1000 = (1024, 512) ∧
    createThumbnailDims 2000 1000 = (200, 200) := by
  have hc := c7_derivation_bounded 2000 1000 (by decide) (by decide)
  exact ⟨hc.1, by decide, hc.2.2⟩

/-! ## Claim C9 — treatment lookup totality -/

/-- C9: for every label (any case, recognized or not), treatment lookup
returns a non-empty list, assuming every recorded recommendation list is
non-empty (the data model's own invariant): the result is the most recently
processed matching row's recorded list when a matching row exists, and
otherwise the entry of the static default table, all of whose entries —
including the catch-all for unknown labels — have 3 to 5 directives. -/
theorem c9_treatment_lookup_total (db : Db) (label : String)
    (hrec : ∀ d ∈ db.diseases, d.treatmentRecommendations ≠ []) :
    getTreatmentRecommendations db label ≠ [] ∧
    3 ≤ (getDefaultTreatmentRecommendations label).length ∧
    (getDefaultTreatmentRecommendations label).length ≤ 5 ∧
    ((∃ d, d ∈ db.diseases ∧ strLower d.diseaseName = strLower label ∧
        getTreatmentRecommendations db label = d.treatmentRecommendations ∧
        (∀ e ∈ db.diseases, strLower e.diseaseName = strLower label →
          detectionProcessedKey db e.detectionId ≤ detectionProcessedKey db d.detectionId)) ∨
      ((∀ e ∈ db.diseases, strLower e.diseaseName ≠ strLower label) ∧
        getTreatmentRecommendations db label = getDefaultTreatmentRecommendations label)) := by
  have hdef : 3 ≤ (getDefaultTreatmentRecommendations label).length ∧
      (getDefaultTreatmentRecommendations label).length ≤ 5 := by
    simp only [getDefaultTreatmentRecommendations]
    split_ifs <;> exact ⟨by decide, by decide⟩
  cases hlat : latestDiseaseFor db label with
  | none =>
    rw [latestDiseaseFor] at hlat
    have hempty := (foldl_argmaxStep_none _ _ _ hlat).1
    have hnomatch : ∀ e ∈ db.diseases, strLower e.diseaseName ≠ strLower label := by
      intro e he hne
      have hin : e ∈ db.diseases.filter
          (fun d => strLower d.diseaseName == strLower label) := by
        rw [List.mem_filter]
        exact ⟨he, by simp [hne]⟩
      rw [hempty] at hin
      exact absurd hin (List.not_mem_nil e)
    have hval : getTreatmentRecommendations db label =
        getDefaultTreatmentRecommendations label := by
      rw [getTreatmentRecommendations, latestDiseaseFor, hlat]
    refine ⟨?_, hdef.1, hdef.2, Or.inr ⟨hnomatch, hval⟩⟩
    rw [hval]
    exact List.ne_nil_of_length_pos (by omega)
  | some d =>
    rw [latestDiseaseFor] at hlat
    have hmem : d ∈ db.diseases.filter
        (fun d => strLower d.diseaseName == strLower label) := by
      rcases foldl_argmaxStep_mem _ _ _ _ hlat with hcontra | hm
      · exact absurd hcontra (by simp)
      · exact hm
    have hmem2 := List.mem_filter.mp hmem
    have hnamed : strLower d.diseaseName = strLower label := by
      have hb := hmem2.2
      simpa using hb
    have hge := (foldl_argmaxStep_ge _ _ _ _ hlat).1
    have hval : getTreatmentRecommendations db label = d.treatmentRecommendations := by
      rw [getTreatmentRecommendations, latestDiseaseFor, hlat]
    refine ⟨hval ▸ hrec d hmem2.1, hdef.1, hdef.2, Or.inl ⟨d, hmem2.1, hnamed, hval, ?_⟩⟩
    intro e he hename
    exact hge e (List.mem_filter.mpr ⟨he, by simp [hename]⟩)

/-- Witness for C9 on the empty database and the uppercase label `RUST`:
the lookup falls back to the default rust treatments, which are non-empty. -/
theorem c9_witness :
    getTreatmentRecommendations emptyDb "RUST" ≠ [] ∧
    3 ≤ (getDefaultTreatmentRecommendations "RUST").length ∧
    (getDefaultTreatmentRecommendations "RUST").length ≤ 5 ∧
    getTreatmentRecommendations emptyDb "RUST" = rustTreatments := by
  have h := c9_treatment_lookup_total emptyDb "RUST" (fun d hd => nomatch hd)
  exact ⟨h.1, h.2.1, h.2.2.1, by decide⟩

/-! ## Claim C8 — owner isolation -/

/-- C8: for any two distinct owners, the history query scoped to owner `A`
returns only `A`-owned detections and never one of `B`-owned ones, for every
database (hence for every interleaved creation order); and a status lookup
by owner `B` can only ever return a `B`-owned row, so when every row with
the requested id belongs to `A` the lookup returns nothing (a 404). -/
theorem c8_owner_isolation (db : Db) (A B i : String) (q : HistoryQuery)
    (hAB : A ≠ B) :
    (∀ d ∈ historyRoute db A q, d.userId = A) ∧
    (∀ d ∈ db.detections, d.userId = B → d ∉ historyRoute db A q) ∧
    (∀ d, statusRoute db i B = some d → d.userId = B) ∧
    ((∀ d ∈ db.detections, d.id = i → d.userId = A) → statusRoute db i B = none) := by
  have howner : ∀ d ∈ historyRoute db A q, d.userId = A := by
    intro d hd
    have h1 : d ∈ (sortByCreatedDesc
        (db.detections.filter (matchesHistory A q))).drop ((q.page - 1) * q.limit) :=
      List.take_subset _ _ hd
    have h2 : d ∈ sortByCreatedDesc (db.detections.filter (matchesHistory A q)) :=
      List.drop_subset _ _ h1
    have h3 : d ∈ db.detections.filter (matchesHistory A q) :=
      (mem_sortByCreatedDesc _ _).mp h2
    have h4 := (List.mem_filter.mp h3).2
    simp only [matchesHistory, Bool.and_eq_true, beq_iff_eq] at h4
    exact h4.1.1.1
  refine ⟨howner, ?_, ?_, ?_⟩
  · intro d _ hB hmem
    exact hAB ((howner d hmem).symm.trans hB)
  · intro d hd
    have hpred := List.find?_some hd
    simp only [Bool.and_eq_true, beq_iff_eq] at hpred
    exact hpred.2
  · intro hall
    cases hfind : statusRoute db i B with
    | none => rfl
    | some d =>
      have hpred := List.find?_some hfind
      simp only [Bool.and_eq_true, beq_iff_eq] at hpred
      have hmem := List.mem_of_find?_eq_some hfind
      exact absurd ((hall d hmem hpred.1).symm.trans hpred.2) hAB

def aliceRow : Detection :=
  { id := "d1", userId := "alice", fileId := "fa",
    processingStatus := "completed", confidenceScore := some 82,
    createdAt := 10, processedAt := some 11 }

def bobRow : Detection :=
  { id := "d2", userId := "bob", fileId := "fb",
    processingStatus := "pending", confidenceScore := none,
    createdAt := 12, processedAt := none }

def dbTwoOwners : Db :=
  { detections := [aliceRow, bobRow], diseases := [], storage := [] }

/-- Witness for C8: with one detection each for alice and bob, bob's lookup
of alice's detection id yields not-found, and bob's row is not in alice's
history. -/
theorem c8_witness :
    statusRoute dbTwoOwners "d1" "bob" = none ∧
    bobRow ∉ historyRoute dbTwoOwners "alice" {} := by
  have h := c8_owner_isolation dbTwoOwners "alice" "bob" "d1" {} (by decide)
  exact ⟨h.2.2.2 (by decide), h.2.1 bobRow (by decide) (by decide)⟩

/-! ## Claim C1 — lifecycle transitions of the process route -/

/-- Ordering of the lifecycle states: pending before processing before the
terminal states. -/
def statusRank (s : String) : Nat :=
  if s = "pending" then 0 else if s = "processing" then 1 else 2

def pendingRow : Detection :=
  { id := "d1", userId := "u1", fileId := "f1",
    processingStatus := "pending", confidenceScore := none,
    createdAt := 0, processedAt := none }

def dbPending : Db := { detections := [pendingRow], diseases := [], storage := [] }

def completedRow : Detection :=
  { id := "d1", userId := "u1", fileId := "f1",
    processingStatus := "completed", confidenceScore := some 90,
    createdAt := 0, processedAt := some 5 }

def dbCompleted : Db := { detections := [completedRow], diseases := [], storage := [] }

/-- C1 counterexample: calling the process route on an already-completed
Detection is rejected with HTTP 400 — not with the claimed 409/ConflictError —
though indeed with no state change. -/
theorem c1_counterexample :
    (processRouteF dbCompleted "d1" "u1" 7 false false).httpStatus = 400 ∧
    (processRouteF dbCompleted "d1" "u1" 7 false false).httpStatus ≠ 409 ∧
    (processRouteF dbCompleted "d1" "u1" 7 false false).db = dbCompleted := by
  refine ⟨by decide, by decide, by decide⟩

/-- C1 amended: on a database with unique detection ids, the process route
answers 404 without state change when the (id, owner) pair is unknown,
rejects with HTTP 400 and no state change when the detection is not pending,
and otherwise updates exactly the matching row from pending directly to
completed; every row's status rank never decreases and the only status
change ever made is pending → completed (the processing intermediate state
is never entered). -/
theorem c1_process_transitions (db : Db) (i u : String) (now : Nat) (f1 f2 : Bool)
    (hids : (db.detections.map Detection.id).Nodup) :
    (findFirstDetection db i u = none →
      (processRouteF db i u now f1 f2).httpStatus = 404 ∧
      (processRouteF db i u now f1 f2).db = db) ∧
    (∀ det, findFirstDetection db i u = some det → det.processingStatus ≠ "pending" →
      (processRouteF db i u now f1 f2).httpStatus = 400 ∧
      (processRouteF db i u now f1 f2).db = db) ∧
    (∀ det, findFirstDetection db i u = some det → det.processingStatus = "pending" →
      (processRouteF db i u now f1 f2).db.detections =
        db.detections.map (fun d =>
          if d.id = i then completeDetection now (topMockConfidence db i) d else d)) ∧
    (∀ e ∈ db.detections, ∃ e2 ∈ (processRouteF db i u now f1 f2).db.detections,
      e2.id = e.id ∧ statusRank e.processingStatus ≤ statusRank e2.processingStatus ∧
      (e2.processingStatus ≠ e.processingStatus →
        e.processingStatus = "pending" ∧ e2.processingStatus = "completed")) := by
  refine ⟨?_, ?_, ?_, ?_⟩
  · intro hnone
    constructor <;> simp [processRouteF, hnone]
  · intro det hdet hnp
    constructor <;> simp [processRouteF, hdet, hnp]
  · intro det hdet hp
    simp [processRouteF, hdet, hp]
  · intro e he
    cases hfind : findFirstDetection db i u with
    | none =>
      refine ⟨e, ?_, rfl, le_refl _, fun hne => absurd rfl hne⟩
      simp [processRouteF, hfind, he]
    | some det =>
      by_cases hp : det.processingStatus = "pending"
      · have hdetmem := List.mem_of_find?_eq_some hfind
        have hpred := List.find?_some hfind
        simp only [Bool.and_eq_true, beq_iff_eq] at hpred
        have hmap : (processRouteF db i u now f1 f2).db.detections =
            db.detections.map (fun d =>
              if d.id = i then completeDetection now (topMockConfidence db i) d else d) := by
          simp [processRouteF, hfind, hp]
        refine ⟨if e.id = i then completeDetection now (topMockConfidence db i) e else e,
          ?_, ?_, ?_, ?_⟩
        · rw [hmap]
          exact List.mem_map_of_mem _ he
        · by_cases hid : e.id = i <;> simp [hid, completeDetection]
        · by_cases hid : e.id = i
          · have heq : e = det :=
              List.inj_on_of_nodup_map hids he hdetmem (by rw [hid, hpred.1])
            rw [if_pos hid, heq, hp]
            simp [completeDetection, statusRank]
          · rw [if_neg hid]
        · by_cases hid : e.id = i
          · intro _
            have heq : e = det :=
              List.inj_on_of_nodup_map hids he hdetmem (by rw [hid, hpred.1])
            rw [if_pos hid]
            exact ⟨heq ▸ hp, rfl⟩
          · rw [if_neg hid]
            intro hne
            exact absurd rfl hne
      · refine ⟨e, ?_, rfl, le_refl _, fun hne => absurd rfl hne⟩
        simp [processRouteF, hfind, hp, he]

/-- Witness for C1 on the concrete pending detection: the route transitions
it straight to completed. -/
theorem c1_witness :
    (processRouteF dbPending "d1" "u1" 7 false false).db.detections =
      dbPending.detections.map (fun d =>
        if d.id = "d1" then completeDetection 7 (topMockConfidence dbPending "d1") d
        else d) := by
  have h := c1_process_transitions dbPending "d1" "u1" 7 false false (by decide)
  exact h.2.2.1 pendingRow (by decide) rfl

/-! ## Claim C2 — atomicity of the Complete write -/

/-- C2 counterexample: the Complete write is not atomic.  With the second
disease insert failing, the Detection row is updated to completed while only
one of the two Disease rows exists — neither all rows nor none. -/
theorem c2_counterexample :
    ((processRouteF dbPending "d1" "u1" 7 false true).db.detections.map
        Detection.processingStatus = ["completed"]) ∧
    (processRouteF dbPending "d1" "u1" 7 false true).db.diseases.length = 1 ∧
    (processRouteF dbPending "d1" "u1" 7 false false).db.diseases.length = 2 ∧
    (processRouteF dbPending "d1" "u1" 7 false true).httpStatus = 500 := by
  refine ⟨by decide, by decide, by decide, by decide⟩

/-- C2 amended: the Detection update and the two Disease inserts are separate
writes with no surrounding transaction (`executeTransaction` is never used
here): whenever the detection is found and pending, the completed update
persists for every combination of insert faults, and exactly the successful
inserts persist; a fault only changes the HTTP status to 500. -/
theorem c2_complete_not_atomic (db : Db) (i u : String) (now : Nat) (f1 f2 : Bool)
    (det : Detection) (hfind : findFirstDetection db i u = some det)
    (hp : det.processingStatus = "pending") :
    (processRouteF db i u now f1 f2).db.detections =
      db.detections.map (fun d =>
        if d.id = i then completeDetection now (topMockConfidence db i) d else d) ∧
    (processRouteF db i u now f1 f2).db.diseases =
      db.diseases ++ ((if f1 then [] else [mockDisease1 db i]) ++
        (if f2 then [] else [mockDisease2 db i])) ∧
    (processRouteF db i u now f1 f2).httpStatus = (if f1 || f2 then 500 else 200) := by
  refine ⟨?_, ?_, ?_⟩ <;> simp [processRouteF, hfind, hp]

/-- Witness for C2 at the concrete pending detection with the second insert
failing. -/
theorem c2_witness :
    (processRouteF dbPending "d1" "u1" 7 false true).db.diseases =
      dbPending.diseases ++ ((if false then [] else [mockDisease1 dbPending "d1"]) ++
        (if true then [] else [mockDisease2 dbPending "d1"])) ∧
    (processRouteF dbPending "d1" "u1" 7 false true).httpStatus =
      (if false || true then 500 else 200) := by
  have h := c2_complete_not_atomic dbPending "d1" "u1" 7 false true pendingRow (by decide) rfl
  exact ⟨h.2.1, h.2.2⟩

/-! ## Claim C4 — completion outcome -/

/-- C4 counterexample: Complete does not branch on any classifier output
(none is consulted): even with an empty disease table, and for what the claim
would treat as an empty candidate list, the route records two fixed Disease
rows (bacterial_blight and healthy), not a single healthy row, and sets
confidenceScore to 0.85, not 1.0. -/
theorem c4_counterexample :
    ((processRouteF dbPending "d1" "u1" 7 false false).db.diseases.map
        Disease.diseaseName = ["bacterial_blight", "healthy"]) ∧
    ((processRouteF dbPending "d1" "u1" 7 false false).db.diseases.map
        Disease.diseaseName ≠ ["healthy"]) ∧
    ((processRouteF dbPending "d1" "u1" 7 false false).db.detections.map
        Detection.confidenceScore = [some 85]) ∧
    some (85 : Nat) ≠ some 100 := by
  refine ⟨by decide, by decide, by decide, by decide⟩

/-- C4 amended: on every pending detection, the successful process call
produces the one fixed outcome: exactly the two mock Disease rows
(bacterial_blight at 0.85 and healthy at 0.15, with treatment
recommendations from the lookup service) are appended, and the matching
Detection row is set to completed with confidenceScore 0.85 and
processedAt = now in the single update. -/
theorem c4_complete_fixed_outcome (db : Db) (i u : String) (now : Nat)
    (det : Detection) (hfind : findFirstDetection db i u = some det)
    (hp : det.processingStatus = "pending") :
    (processRoute db i u now).httpStatus = 200 ∧
    (processRoute db i u now).db.diseases =
      db.diseases ++ [mockDisease1 db i, mockDisease2 db i] ∧
    (mockDisease1 db i).diseaseName = "bacterial_blight" ∧
    (mockDisease1 db i).confidence = 85 ∧
    (mockDisease2 db i).diseaseName = "healthy" ∧
    (mockDisease2 db i).confidence = 15 ∧
    (∀ d ∈ (processRoute db i u now).db.detections, d.id = i →
      d.processingStatus = "completed" ∧ d.confidenceScore = some 85 ∧
      d.processedAt = some now) := by
  refine ⟨?_, ?_, rfl, rfl, rfl, rfl, ?_⟩
  · simp [processRoute, processRouteF, hfind, hp]
  · simp [processRoute, processRouteF, hfind, hp]
  · intro d hd hdid
    have hdets : (processRoute db i u now).db.detections =
        db.detections.map (fun e =>
          if e.id = i then completeDetection now (topMockConfidence db i) e else e) := by
      simp [processRoute, processRouteF, hfind, hp]
    rw [hdets] at hd
    rcases List.mem_map.mp hd with ⟨e, -, rfl⟩
    by_cases hid : e.id = i
    · rw [if_pos hid]
      exact ⟨rfl, rfl, rfl⟩
    · rw [if_neg hid] at hdid ⊢
      exact absurd hdid hid

/-- Witness for C4 at the concrete pending detection. -/
theorem c4_witness :
    (processRoute dbPending "d1" "u1" 7).httpStatus = 200 ∧
    (processRoute dbPending "d1" "u1" 7).db.diseases =
      dbPending.diseases ++ [mockDisease1 dbPending "d1", mockDisease2 dbPending "d1"] ∧
    (mockDisease1 dbPending "d1").diseaseName = "bacterial_blight" := by
  have h := c4_complete_fixed_outcome dbPending "d1" "u1" 7 pendingRow (by decide) rfl
  exact ⟨h.1, h.2.1, h.2.2.1⟩

/-! ## Claim C5 — cleanup on partial derivation -/

def failedUploadDb : Db := (uploadRoute emptyDb "u1" "f1" "d1" 3 true false true).db

/-- C5: when thumbnail derivation fails after the original and processed
variants were written, the route answers 500 and leaves both written
variants in storage — `cleanupFiles` removes nothing, so a subsequent
existence check finds 2 of the 3 variants, not 0. -/
theorem c5_cleanup_missing :
    (uploadRoute emptyDb "u1" "f1" "d1" 3 true false true).httpStatus = 500 ∧
    variantCount failedUploadDb "u1" "f1" = 2 ∧
    cleanupFiles failedUploadDb "u1" "f1" = failedUploadDb ∧
    variantCount (cleanupFiles failedUploadDb "u1" "f1") "u1" "f1" = 2 ∧
    failedUploadDb.detections = [] := by
  refine ⟨by decide, by decide, by decide, by decide, by decide⟩

/-! ## Claim C6 — artifact variants versus status -/

def uploadedDb : Db := (uploadRoute emptyDb "u1" "f1" "d1" 3 true true true).db

/-- C6 counterexample: immediately after a successful upload the Detection's
status is pending, yet all three artifact variants already exist — the
claimed equivalence with status ∈ \x7bprocessing, completed, failed\x7d fails. -/
theorem c6_counterexample :
    (uploadedDb.detections.map Detection.processingStatus = ["pending"]) ∧
    ("u1", "original", "f1") ∈ uploadedDb.storage ∧
    ("u1", "processed", "f1") ∈ uploadedDb.storage ∧
    ("u1", "thumbnail", "f1") ∈ uploadedDb.storage ∧
    "pending" ∉ ["processing", "completed", "failed"] := by
  refine ⟨by decide, by decide, by decide, by decide, by decide⟩

/-- C6 amended: in every state reachable through the two routes, every
Detection row — whatever its status — has all three artifact variants in
storage: derivation completes before the pending row is created, so all
three variants exist already while the status is pending. -/
theorem c6_variants_always_present (db : Db) (hr : Reach db) :
    ∀ d ∈ db.detections,
      (d.userId, "original", d.fileId) ∈ db.storage ∧
      (d.userId, "processed", d.fileId) ∈ db.storage ∧
      (d.userId, "thumbnail", d.fileId) ∈ db.storage := by
  induction hr with
  | empty =>
    intro d hd
    exact absurd hd (by simp [emptyDb])
  | upload db u f rid now p t c hdb ih =>
    intro d hd
    cases p with
    | false =>
      simp only [uploadRoute, Bool.false_eq_true, if_false] at hd ⊢
      rcases ih d hd with ⟨h1, h2, h3⟩
      exact ⟨List.mem_append_left _ h1, List.mem_append_left _ h2,
        List.mem_append_left _ h3⟩
    | true =>
      cases t with
      | false =>
        simp only [uploadRoute, Bool.false_eq_true, if_false, if_true] at hd ⊢
        rcases ih d hd with ⟨h1, h2, h3⟩
        refine ⟨?_, ?_, ?_⟩ <;> simp [List.mem_append] <;> tauto
      | true =>
        cases c with
        | false =>
          simp only [uploadRoute, Bool.false_eq_true, if_false, if_true] at hd ⊢
          rcases ih d hd with ⟨h1, h2, h3⟩
          refine ⟨?_, ?_, ?_⟩ <;> simp [List.mem_append] <;> tauto
        | true =>
          simp only [uploadRoute, if_true] at hd ⊢
          rcases List.mem_append.mp hd with hold | hnew
          · rcases ih d hold with ⟨h1, h2, h3⟩
            refine ⟨?_, ?_, ?_⟩ <;> simp [List.mem_append] <;> tauto
          · have hd2 : d = newDetectionRow u f rid now := by
              simpa using hnew
            subst hd2
            refine ⟨?_, ?_, ?_⟩ <;> simp [newDetectionRow, List.mem_append]
  | process db i u now f1 f2 hdb ih =>
    intro d hd
    cases hfind : findFirstDetection db i u with
    | none =>
      rw [processRouteF, hfind] at hd ⊢
      exact ih d hd
    | some det =>
      by_cases hp : det.processingStatus = "pending"
      · have hdets : (processRouteF db i u now f1 f2).db.detections =
            db.detections.map (fun e =>
              if e.id = i then completeDetection now (topMockConfidence db i) e else e) := by
          simp [processRouteF, hfind, hp]
        have hstor : (processRouteF db i u now f1 f2).db.storage = db.storage := by
          simp [processRouteF, hfind, hp]
        rw [hdets] at hd
        rw [hstor]
        rcases List.mem_map.mp hd with ⟨e, he, rfl⟩
        rcases ih e he with ⟨h1, h2, h3⟩
        by_cases hid : e.id = i
        · rw [if_pos hid]
          exact ⟨h1, h2, h3⟩
        · rw [if_neg hid]
          exact ⟨h1, h2, h3⟩
      · have hsame : (processRouteF db i u now f1 f2).db = db := by
          simp [processRouteF, hfind, hp]
        rw [hsame] at hd ⊢
        exact ih d hd

/-- Witness for C6: the reachable state right after a successful upload has
its (pending) detection's three variants in storage. -/
theorem c6_witness :
    ("u1", "original", "f1") ∈ uploadedDb.storage ∧
    ("u1", "processed", "f1") ∈ uploadedDb.storage ∧
    ("u1", "thumbnail", "f1") ∈ uploadedDb.storage := by
  have hreach : Reach uploadedDb :=
    Reach.upload emptyDb "u1" "f1" "d1" 3 true true true Reach.empty
  have h := c6_variants_always_present uploadedDb hreach
  have hd : newDetectionRow "u1" "f1" "d1" 3 ∈ uploadedDb.detections := by decide
  exact h _ hd

end LeafDisease
